import Mathlib

/-!
Verification of the recommendation pipeline and scoring utilities of the
decentralized-news-application backend.

The Python sources embedded here are:
  * `backend/shared/utils.py` — `calculate_reading_time`, `calculate_word_count`,
    `extract_keywords`, `calculate_quality_score`, `calculate_trending_score`,
    `cache_key_generator`;
  * `backend/fastapi_app/routers/recommendations.py` and
    `backend/flask_app/routes/recommendations.py` — `get_recommendations`
    (both frameworks implement the identical resolution pipeline; the single
    model `resolveRecommendations` below embeds that common control flow).

Modelling conventions:
  * Python `str` is modelled as `List Char`; the regex `[a-zA-Z]` and
    `\w` classes are modelled over ASCII via explicit code-point ranges.
  * Python `float` arithmetic is idealised as exact rational arithmetic
    (`ℚ`); `round` is Python's banker's rounding (half to even).
  * Database rows are lists of records; SQL filtering, ordering and `LIMIT`
    are list filter / stable sort / `take`.
-/

namespace NewsRec

/-! ### ASCII character classes (model of the regex classes used in `utils.py`) -/

/-- ASCII lowercase letter, the `[a-z]` part of the regex `[a-zA-Z]`. -/
def isAsciiLower (c : Char) : Bool := 97 ≤ c.toNat && c.toNat ≤ 122

/-- ASCII uppercase letter, the `[A-Z]` part of the regex `[a-zA-Z]`. -/
def isAsciiUpper (c : Char) : Bool := 65 ≤ c.toNat && c.toNat ≤ 90

/-- ASCII letter, the regex class `[a-zA-Z]`. -/
def isAsciiAlpha (c : Char) : Bool := isAsciiLower c || isAsciiUpper c

/-- ASCII digit, `[0-9]`. -/
def isAsciiDigit (c : Char) : Bool := 48 ≤ c.toNat && c.toNat ≤ 57

/-- Python regex word character `\w` (ASCII): letter, digit or underscore.
The `\b` boundaries in `\b[a-zA-Z]{3,}\b` are transitions between `\w`
and non-`\w` positions. -/
def isWordChar (c : Char) : Bool := isAsciiAlpha c || isAsciiDigit c || c == '_'

/-- Python whitespace as recognised by `str.split()` with no argument. -/
def isPySpace (c : Char) : Bool :=
  c == ' ' || c == '\t' || c == '\n' || c.toNat == 13 || c.toNat == 12 || c.toNat == 11

/-- Model of `str.lower()` on one ASCII character: uppercase letters are
shifted into `[a-z]`, everything else is unchanged. -/
def pyLowerChar (c : Char) : Char :=
  if isAsciiUpper c then Char.ofNat (c.toNat + 32) else c

theorem toNat_ofNat_of_le (n : Nat) (h2 : n ≤ 122) : (Char.ofNat n).toNat = n := by
  unfold Char.ofNat
  split
  · rfl
  · next h => exact absurd (Or.inl (by omega)) h

theorem isAsciiLower_pyLowerChar_of_alpha (c : Char)
    (h : isAsciiAlpha (pyLowerChar c) = true) : isAsciiLower (pyLowerChar c) = true := by
  by_cases hu : isAsciiUpper c = true
  · have hc : (65 : Nat) ≤ c.toNat ∧ c.toNat ≤ 90 := by
      simpa [isAsciiUpper, Bool.and_eq_true, decide_eq_true_eq] using hu
    have ht : (Char.ofNat (c.toNat + 32)).toNat = c.toNat + 32 :=
      toNat_ofNat_of_le _ (by omega)
    simp only [pyLowerChar, hu, if_pos, isAsciiLower, ht, Bool.and_eq_true,
      decide_eq_true_eq]
    omega
  · rw [pyLowerChar, if_neg hu] at h ⊢
    simp only [isAsciiAlpha, Bool.or_eq_true] at h
    rcases h with h | h
    · exact h
    · exact absurd h hu

/-! ### Generic list splitting (models of Python `str.split`) -/

/-- Accumulator worker for `runsOf`: `cur` is the reversed prefix of the run
currently being scanned. -/
def runsOfAux (p : Char → Bool) : List Char → List Char → List (List Char)
  | cur, [] => if cur.isEmpty then [] else [cur.reverse]
  | cur, c :: cs =>
    if p c then runsOfAux p (c :: cur) cs
    else if cur.isEmpty then runsOfAux p [] cs
    else cur.reverse :: runsOfAux p [] cs

/-- Maximal runs of characters satisfying `p`; the model of what the regex
scanner can see: `runsOf isWordChar s` lists the maximal `\w`-runs of `s`,
and `str.split()` is `runsOf (not ∘ isPySpace)`. -/
def runsOf (p : Char → Bool) (l : List Char) : List (List Char) := runsOfAux p [] l

theorem mem_of_mem_runsOfAux (p : Char → Bool) :
    ∀ (l cur : List Char), ∀ r ∈ runsOfAux p cur l, ∀ c ∈ r, c ∈ cur ∨ c ∈ l := by
  intro l
  induction l with
  | nil =>
    intro cur r hr c hc
    rw [runsOfAux] at hr
    split at hr
    · simp at hr
    · simp only [List.mem_singleton] at hr
      subst hr
      exact Or.inl (List.mem_reverse.mp hc)
  | cons x xs ih =>
    intro cur r hr c hc
    rw [runsOfAux] at hr
    split at hr
    · rcases ih (x :: cur) r hr c hc with h | h
      · rcases List.mem_cons.mp h with rfl | h
        · exact Or.inr (List.mem_cons_self _ _)
        · exact Or.inl h
      · exact Or.inr (List.mem_cons_of_mem _ h)
    · split at hr
      · rcases ih [] r hr c hc with h | h
        · simp at h
        · exact Or.inr (List.mem_cons_of_mem _ h)
      · rcases List.mem_cons.mp hr with rfl | hr
        · exact Or.inl (List.mem_reverse.mp hc)
        · rcases ih [] r hr c hc with h | h
          · simp at h
          · exact Or.inr (List.mem_cons_of_mem _ h)

theorem mem_of_mem_runsOf (p : Char → Bool) (l : List Char) :
    ∀ r ∈ runsOf p l, ∀ c ∈ r, c ∈ l := by
  intro r hr c hc
  rcases mem_of_mem_runsOfAux p l [] r hr c hc with h | h
  · simp at h
  · exact h

/-- Model of Python `content.split()` (no separator): maximal nonblank runs. -/
def pySplitWs (s : List Char) : List (List Char) := runsOf (fun c => !isPySpace c) s

/-- Model of Python `s.split(sep)` for a single-character separator `sep`:
always returns one more piece than the number of separator occurrences, so
never the empty list. -/
def pySplitChar (sep : Char) : List Char → List (List Char)
  | [] => [[]]
  | c :: cs =>
    if c == sep then
      [] :: pySplitChar sep cs
    else
      match pySplitChar sep cs with
      | [] => [[c]]
      | p :: ps => (c :: p) :: ps

/-- Model of Python `s.split(chr1 ++ chr2)` for the two-character separator
used for paragraphs: leftmost non-overlapping occurrences. -/
def pySplitSeq2 (a b : Char) : List Char → List (List Char)
  | [] => [[]]
  | [c] => [[c]]
  | c :: d :: rest =>
    if c == a && d == b then
      [] :: pySplitSeq2 a b rest
    else
      match pySplitSeq2 a b (d :: rest) with
      | [] => [[c]]
      | p :: ps => (c :: p) :: ps

theorem pySplitChar_ne_nil (sep : Char) (s : List Char) : pySplitChar sep s ≠ [] := by
  induction s with
  | nil => simp [pySplitChar]
  | cons c cs ih =>
    unfold pySplitChar
    split
    · simp
    · cases h : pySplitChar sep cs <;> simp

/-- Model of Python `str.strip()`: drop whitespace from both ends. -/
def pyStrip (s : List Char) : List Char :=
  ((s.dropWhile isPySpace).reverse.dropWhile isPySpace).reverse

/-! ### Python `round` (banker's rounding) over exact rationals -/

/-- Python's built-in `round` to an integer: round half to even. -/
def pyRound (x : ℚ) : ℤ :=
  let f := ⌊x⌋
  let r := x - (f : ℚ)
  if r < 1/2 then f
  else if 1/2 < r then f + 1
  else if f % 2 = 0 then f else f + 1

/-- Python `round(x, 2)`: round to two decimal places, half to even. -/
def pyRound2 (x : ℚ) : ℚ := (pyRound (x * 100) : ℚ) / 100

theorem pyRound_intCast (n : ℤ) : pyRound (n : ℚ) = n := by
  unfold pyRound
  simp only [Int.floor_intCast, sub_self]
  rw [if_pos (by norm_num)]

theorem pyRound2_intCast (n : ℤ) : pyRound2 (n : ℚ) = (n : ℚ) := by
  unfold pyRound2
  rw [show ((n : ℚ) * 100) = ((n * 100 : ℤ) : ℚ) by push_cast; ring, pyRound_intCast]
  push_cast
  ring

/-! ### ScoreCalculator (`backend/shared/utils.py`) -/

/-- `utils.calculate_word_count`: `len(content.split())`. -/
def calculate_word_count (content : List Char) : Nat := (pySplitWs content).length

/-- `utils.calculate_reading_time`: `max(1, round(word_count / 200))`. -/
def calculate_reading_time (content : List Char) : ℤ :=
  max 1 (pyRound ((calculate_word_count content : ℚ) / 200))

/-- The fixed stop-word set of `utils.extract_keywords`. -/
def stopWords : List String :=
  ["the", "a", "an", "and", "or", "but", "in", "on", "at", "to",
   "for", "of", "with", "by", "is", "are", "was", "were", "be",
   "been", "have", "has", "had", "do", "does", "did", "will",
   "would", "could", "should", "can", "may", "might", "this",
   "that", "these", "those", "i", "you", "he", "she", "it",
   "we", "they", "me", "him", "her", "us", "them"]

/-- `re.findall(r'\b[a-zA-Z]\x7b3,\x7d\b', content.lower())`: a match is
exactly a maximal `\w`-run of the lowercased text that consists entirely of
letters and has length at least 3 (a run containing a digit or underscore
breaks the `\b` condition and yields no match). -/
def pyFindWords (content : List Char) : List String :=
  ((runsOf isWordChar (content.map pyLowerChar)).filter
    (fun r => 3 ≤ r.length && r.all isAsciiAlpha)).map (fun r => String.mk r)

/-- The tokens surviving the stop-word filter, in text order (the stream the
`word_count` dict of `extract_keywords` is built from). -/
def filteredTokens (content : List Char) : List String :=
  (pyFindWords content).filter (fun w => !stopWords.contains w)

/-- Worker for `dedupFirst`: keep elements not already in `seen`. -/
def dedupFirstAux {α : Type} [DecidableEq α] (seen : List α) : List α → List α
  | [] => []
  | x :: xs => if x ∈ seen then dedupFirstAux seen xs else x :: dedupFirstAux (x :: seen) xs

/-- First occurrences of each element, in order of first appearance: the key
order of a Python dict populated left to right. -/
def dedupFirst {α : Type} [DecidableEq α] (l : List α) : List α := dedupFirstAux [] l

/-- The `word_count` dict of `extract_keywords` as an insertion-ordered
association list: keys in first-occurrence order, values total counts. -/
def wordCounts (content : List Char) : List (String × Nat) :=
  (dedupFirst (filteredTokens content)).map
    (fun w => (w, (filteredTokens content).count w))

/-- Order used by `sorted(word_count.items(), key=lambda x: x[1],
reverse=True)`: count descending. A stable sort by this preorder is unique,
so the stable `List.insertionSort` is extensionally the same list Python's
stable sort produces. -/
def kwRel (a b : String × Nat) : Prop := b.2 ≤ a.2

instance : DecidableRel kwRel := fun a b => Nat.decLe b.2 a.2

instance : IsTotal (String × Nat) kwRel := ⟨fun a b => Nat.le_total b.2 a.2⟩

instance : IsTrans (String × Nat) kwRel :=
  ⟨fun _ _ _ h1 h2 => Nat.le_trans h2 h1⟩

/-- `utils.extract_keywords`. -/
def extract_keywords (content : List Char) (maxKeywords : Nat) : List String :=
  ((List.insertionSort kwRel (wordCounts content)).take maxKeywords).map Prod.fst

theorem mem_of_mem_dedupFirstAux {α : Type} [DecidableEq α] :
    ∀ (l seen : List α), ∀ a ∈ dedupFirstAux seen l, a ∈ l := by
  intro l
  induction l with
  | nil => intro seen a ha; simp [dedupFirstAux] at ha
  | cons x xs ih =>
    intro seen a ha
    rw [dedupFirstAux] at ha
    split at ha
    · exact List.mem_cons_of_mem _ (ih seen a ha)
    · rcases List.mem_cons.mp ha with rfl | ha
      · exact List.mem_cons_self _ _
      · exact List.mem_cons_of_mem _ (ih (x :: seen) a ha)

theorem nodup_dedupFirstAux {α : Type} [DecidableEq α] :
    ∀ (l seen : List α),
      (dedupFirstAux seen l).Nodup ∧ ∀ a ∈ dedupFirstAux seen l, a ∉ seen := by
  intro l
  induction l with
  | nil => intro seen; simp [dedupFirstAux]
  | cons x xs ih =>
    intro seen
    rw [dedupFirstAux]
    split
    · exact ih seen
    · next hx =>
      obtain ⟨hnd, hmem⟩ := ih (x :: seen)
      refine ⟨List.nodup_cons.mpr ⟨fun hc => ?_, hnd⟩, ?_⟩
      · exact hmem x hc (List.mem_cons_self _ _)
      · intro a ha hseen
        rcases List.mem_cons.mp ha with rfl | ha
        · exact hx hseen
        · exact hmem a ha (List.mem_cons_of_mem _ hseen)

theorem nodup_dedupFirst {α : Type} [DecidableEq α] (l : List α) :
    (dedupFirst l).Nodup := (nodup_dedupFirstAux l []).1

theorem mem_of_mem_dedupFirst {α : Type} [DecidableEq α] (l : List α) :
    ∀ a ∈ dedupFirst l, a ∈ l := mem_of_mem_dedupFirstAux l []

theorem pyFindWords_mem (content : List Char) :
    ∀ w ∈ pyFindWords content,
      3 ≤ w.length ∧ ∀ c ∈ w.data, isAsciiLower c = true := by
  intro w hw
  obtain ⟨r, hr, rfl⟩ := List.mem_map.mp hw
  obtain ⟨hrun, hq⟩ := List.mem_filter.mp hr
  rw [Bool.and_eq_true, decide_eq_true_eq] at hq
  obtain ⟨hlen, halpha⟩ := hq
  refine ⟨hlen, ?_⟩
  intro c hc
  have hmem := mem_of_mem_runsOf isWordChar _ r hrun c hc
  obtain ⟨c0, _, rfl⟩ := List.mem_map.mp hmem
  exact isAsciiLower_pyLowerChar_of_alpha c0
    (List.all_eq_true.mp halpha (pyLowerChar c0) hc)

theorem map_fst_wordCounts (content : List Char) :
    (wordCounts content).map Prod.fst = dedupFirst (filteredTokens content) := by
  unfold wordCounts
  rw [List.map_map]
  exact List.map_id _

theorem nodup_wordCounts (content : List Char) : (wordCounts content).Nodup :=
  List.Nodup.of_map Prod.fst
    (by rw [map_fst_wordCounts]; exact nodup_dedupFirst _)

theorem mem_wordCounts (content : List Char) (a : String × Nat)
    (ha : a ∈ wordCounts content) :
    a.1 ∈ dedupFirst (filteredTokens content)
    ∧ a.2 = (filteredTokens content).count a.1 := by
  obtain ⟨w, hw, rfl⟩ := List.mem_map.mp ha
  exact ⟨hw, rfl⟩

theorem sublist_pair_of_mem {α : Type} {l : List α} {a b : α}
    (ha : a ∈ l) (hb : b ∈ l) (hab : a ≠ b) :
    [a, b].Sublist l ∨ [b, a].Sublist l := by
  induction l with
  | nil => cases ha
  | cons x t ih =>
    rcases List.mem_cons.mp ha with rfl | ha'
    · have hb' : b ∈ t := by
        rcases List.mem_cons.mp hb with rfl | h
        · exact absurd rfl hab
        · exact h
      exact Or.inl (List.cons_sublist_cons.mpr (List.singleton_sublist.mpr hb'))
    · rcases List.mem_cons.mp hb with rfl | hb'
      · exact Or.inr (List.cons_sublist_cons.mpr (List.singleton_sublist.mpr ha'))
      · rcases ih ha' hb' with h | h
        · exact Or.inl (h.cons x)
        · exact Or.inr (h.cons x)

theorem eq_of_both_pair_sublist_of_nodup {α : Type} :
    ∀ {l : List α}, l.Nodup → ∀ {a b : α},
      [a, b].Sublist l → [b, a].Sublist l → a = b := by
  intro l
  induction l with
  | nil => intro _ a b h1 _; cases h1
  | cons x t ih =>
    intro hnd a b h1 h2
    obtain ⟨hx, hndt⟩ := List.nodup_cons.mp hnd
    rcases List.sublist_cons_iff.mp h1 with h1t | ⟨r1, he1, hr1⟩
    · rcases List.sublist_cons_iff.mp h2 with h2t | ⟨r2, he2, hr2⟩
      · exact ih hndt h1t h2t
      · injection he2 with hbx _
        exact absurd (hbx ▸ h1t.mem (by simp : b ∈ [a, b])) hx
    · injection he1 with hax _
      rcases List.sublist_cons_iff.mp h2 with h2t | ⟨r2, he2, hr2⟩
      · exact absurd (hax ▸ h2t.mem (by simp : a ∈ [b, a])) hx
      · injection he2 with hbx _
        exact hax.trans hbx.symm

theorem insertionSort_pair_wordCounts (content : List Char) :
    ∀ a b : String × Nat,
      [a, b].Sublist (List.insertionSort kwRel (wordCounts content)) →
      b.2 < a.2 ∨ (a.2 = b.2 ∧ [a, b].Sublist (wordCounts content)) := by
  intro a b hab
  have hperm : (List.insertionSort kwRel (wordCounts content)).Perm (wordCounts content) :=
    List.perm_insertionSort kwRel _
  have hsorted : (List.insertionSort kwRel (wordCounts content)).Pairwise kwRel :=
    List.sorted_insertionSort kwRel _
  have hle : kwRel a b := List.pairwise_iff_forall_sublist.mp hsorted hab
  by_cases hlt : b.2 < a.2
  · exact Or.inl hlt
  · have heq : a.2 = b.2 := Nat.le_antisymm (Nat.le_of_not_lt hlt) hle
    refine Or.inr ⟨heq, ?_⟩
    have hnodup : (List.insertionSort kwRel (wordCounts content)).Nodup :=
      hperm.symm.nodup (nodup_wordCounts content)
    have hne : a ≠ b := by
      rintro rfl
      exact (List.pairwise_iff_forall_sublist.mp hnodup hab) rfl
    have hma : a ∈ wordCounts content := hperm.mem_iff.mp (hab.mem (by simp))
    have hmb : b ∈ wordCounts content := hperm.mem_iff.mp (hab.mem (by simp))
    rcases sublist_pair_of_mem hma hmb hne with h | h
    · exact h
    · exfalso
      have hba : [b, a].Sublist (List.insertionSort kwRel (wordCounts content)) :=
        List.sublist_insertionSort (by simp [List.pairwise_cons, kwRel, heq]) h
      exact hne (eq_of_both_pair_sublist_of_nodup hnodup hab hba)

/-- C6: for every content string and every bound, `extract_keywords` returns
only non-stop-word lowercase alphabetic tokens of length ≥ 3, returns at most
`maxKeywords` entries and no more than the number of distinct non-stop-word
tokens, and its output is ordered by frequency descending with ties in
first-encountered order (`dedupFirst (filteredTokens content)` is exactly the
distinct tokens in first-encounter order, so sublist order in it is
first-encounter order). -/
theorem extract_keywords_spec (content : List Char) (maxKeywords : Nat) :
    (∀ w ∈ extract_keywords content maxKeywords,
        3 ≤ w.length ∧ (∀ c ∈ w.data, isAsciiLower c = true) ∧ w ∉ stopWords)
    ∧ (extract_keywords content maxKeywords).length ≤ maxKeywords
    ∧ (extract_keywords content maxKeywords).length
        ≤ (dedupFirst (filteredTokens content)).length
    ∧ (extract_keywords content maxKeywords).Pairwise (fun u v =>
        (filteredTokens content).count v < (filteredTokens content).count u
        ∨ ((filteredTokens content).count u = (filteredTokens content).count v
            ∧ [u, v].Sublist (dedupFirst (filteredTokens content)))) := by
  refine ⟨?_, ?_, ?_, ?_⟩
  · intro w hw
    obtain ⟨pr, hpr, rfl⟩ := List.mem_map.mp hw
    have hs : pr ∈ List.insertionSort kwRel (wordCounts content) :=
      (List.take_sublist _ _).mem hpr
    have hwcs : pr ∈ wordCounts content :=
      (List.perm_insertionSort kwRel _).mem_iff.mp hs
    have hdd := (mem_wordCounts content pr hwcs).1
    have hft : pr.1 ∈ filteredTokens content := mem_of_mem_dedupFirst _ _ hdd
    obtain ⟨hpf, hstop⟩ := List.mem_filter.mp hft
    obtain ⟨hlen, hlow⟩ := pyFindWords_mem content pr.1 hpf
    refine ⟨hlen, hlow, ?_⟩
    simpa using hstop
  · calc (extract_keywords content maxKeywords).length
        = ((List.insertionSort kwRel (wordCounts content)).take maxKeywords).length :=
          List.length_map _ _
      _ ≤ maxKeywords := List.length_take_le _ _
  · calc (extract_keywords content maxKeywords).length
        = ((List.insertionSort kwRel (wordCounts content)).take maxKeywords).length :=
          List.length_map _ _
      _ ≤ (List.insertionSort kwRel (wordCounts content)).length :=
          (List.take_sublist _ _).length_le
      _ = (wordCounts content).length := List.length_insertionSort _ _
      _ = (dedupFirst (filteredTokens content)).length := by
          rw [← map_fst_wordCounts content, List.length_map]
  · have htake : ((List.insertionSort kwRel (wordCounts content)).take
        maxKeywords).Pairwise (fun a b : String × Nat =>
          b.2 < a.2 ∨ (a.2 = b.2 ∧ [a, b].Sublist (wordCounts content))) :=
      List.pairwise_iff_forall_sublist.mpr
        (fun h => insertionSort_pair_wordCounts content _ _
          (h.trans (List.take_sublist _ _)))
    refine List.pairwise_map.mpr (htake.imp_of_mem ?_)
    intro a b ha hb hr
    have hma : a ∈ wordCounts content :=
      (List.perm_insertionSort kwRel _).mem_iff.mp ((List.take_sublist _ _).mem ha)
    have hmb : b ∈ wordCounts content :=
      (List.perm_insertionSort kwRel _).mem_iff.mp ((List.take_sublist _ _).mem hb)
    have hca := (mem_wordCounts content a hma).2
    have hcb := (mem_wordCounts content b hmb).2
    rcases hr with hlt | ⟨heq, hsub⟩
    · exact Or.inl (hca ▸ hcb ▸ hlt)
    · refine Or.inr ⟨hca ▸ hcb ▸ heq, ?_⟩
      have := hsub.map Prod.fst
      rwa [map_fst_wordCounts content] at this

/-- Concrete content used to witness `extract_keywords_spec`. -/
def kwWitnessContent : List Char := "Cats love cats and dogs".data

theorem extract_keywords_spec_witness :
    ("cats" ∈ extract_keywords kwWitnessContent 10)
    ∧ (3 ≤ String.length "cats"
        ∧ (∀ c ∈ String.data "cats", isAsciiLower c = true)
        ∧ "cats" ∉ stopWords) :=
  ⟨by decide, (extract_keywords_spec kwWitnessContent 10).1 "cats" (by decide)⟩

/-! ### CacheKeyCodec (`utils.cache_key_generator`) -/

/-- Python values that occur as `cache_key_generator` arguments in this
codebase: strings, ints, bools, `None` and lists of strings. -/
inductive PyVal where
  | vstr (s : String)
  | vint (n : Int)
  | vbool (b : Bool)
  | vnone
  | vlistStr (l : List String)
deriving DecidableEq

/-- ASCII single quote, used by Python `repr` of a string. -/
def quoteChar : Char := Char.ofNat 39

/-- Python `repr` of a string (as it appears inside `str(list)`). -/
def pyQuote (s : String) : String := ⟨quoteChar :: (s.data ++ [quoteChar])⟩

/-- Python `str(value)` for the supported values. -/
def pyStr : PyVal → String
  | .vstr s => s
  | .vint n => toString n
  | .vbool b => if b then "True" else "False"
  | .vnone => "None"
  | .vlistStr l => "[" ++ String.intercalate ", " (l.map pyQuote) ++ "]"

/-- Serialization of one positional argument of `cache_key_generator`:
scalars via `str`, lists comma-joined, anything else through `hash(str(.))`
(`pyHash` abstracts Python's process-seeded `hash`). -/
def argPart (pyHash : String → Int) : PyVal → String
  | .vstr s => s
  | .vint n => toString n
  | .vbool b => if b then "True" else "False"
  | .vlistStr l => String.intercalate "," l
  | .vnone => toString (pyHash "None")

/-- Order used by `sorted(kwargs.items())`: compare by key (Python compares
the tuples, but dict keys are unique so the key decides). -/
def kvRel (a b : String × PyVal) : Prop := a.1 ≤ b.1

instance : DecidableRel kvRel := fun a b => inferInstanceAs (Decidable (a.1 ≤ b.1))

instance : IsTotal (String × PyVal) kvRel := ⟨fun a b => le_total a.1 b.1⟩

instance : IsTrans (String × PyVal) kvRel := ⟨fun _ _ _ h1 h2 => le_trans h1 h2⟩

/-- `utils.cache_key_generator`: positional parts, then keyword parts sorted
by key, joined with `:` and digested. `digest` abstracts
`hashlib.md5(...).hexdigest()`, a fixed pure function of the joined string. -/
def cache_key_generator (digest : String → String) (pyHash : String → Int)
    (args : List PyVal) (kwargs : List (String × PyVal)) : String :=
  let argParts := args.map (argPart pyHash)
  let kwParts := (List.insertionSort kvRel kwargs).map
    (fun kv => kv.1 ++ "=" ++ pyStr kv.2)
  digest (String.intercalate ":" (argParts ++ kwParts))

/-- C5: `cache_key_generator` is deterministic (it is a function) and
order-independent over keyword arguments: two keyword maps with the same
key-value bindings in any order produce the identical key. -/
theorem cache_key_generator_order_independent
    (digest : String → String) (pyHash : String → Int) (args : List PyVal)
    (kw1 kw2 : List (String × PyVal))
    (hperm : kw1.Perm kw2) (hnd : (kw1.map Prod.fst).Nodup) :
    cache_key_generator digest pyHash args kw1
      = cache_key_generator digest pyHash args kw2 := by
  suffices h : List.insertionSort kvRel kw1 = List.insertionSort kvRel kw2 by
    unfold cache_key_generator
    rw [h]
  haveI : IsAntisymm (String × PyVal) (fun a b => a.1 < b.1) :=
    ⟨fun a b h1 h2 => absurd (lt_trans h1 h2) (lt_irrefl _)⟩
  have sortedStrict : ∀ kw : List (String × PyVal), (kw.map Prod.fst).Nodup →
      (List.insertionSort kvRel kw).Pairwise (fun a b => a.1 < b.1) := by
    intro kw hkw
    have hs : (List.insertionSort kvRel kw).Pairwise kvRel :=
      List.sorted_insertionSort kvRel kw
    have hmapnd : ((List.insertionSort kvRel kw).map Prod.fst).Nodup :=
      ((List.perm_insertionSort kvRel kw).map Prod.fst).symm.nodup hkw
    have hneq : (List.insertionSort kvRel kw).Pairwise (fun a b => a.1 ≠ b.1) :=
      List.pairwise_map.mp hmapnd
    exact (hs.and hneq).imp (fun h => lt_of_le_of_ne h.1 h.2)
  have hnd2 : (kw2.map Prod.fst).Nodup := (hperm.map Prod.fst).nodup hnd
  exact List.eq_of_perm_of_sorted
    ((List.perm_insertionSort kvRel kw1).trans
      (hperm.trans (List.perm_insertionSort kvRel kw2).symm))
    (sortedStrict kw1 hnd) (sortedStrict kw2 hnd2)

theorem cache_key_generator_witness :
    ([(("a" : String), PyVal.vint 1), ("b", PyVal.vint 2)].Perm
        [("b", PyVal.vint 2), ("a", PyVal.vint 1)]
      ∧ ([(("a" : String), PyVal.vint 1), ("b", PyVal.vint 2)].map Prod.fst).Nodup)
    ∧ cache_key_generator (fun s => s) (fun _ => 0) []
        [("a", PyVal.vint 1), ("b", PyVal.vint 2)]
      = cache_key_generator (fun s => s) (fun _ => 0) []
        [("b", PyVal.vint 2), ("a", PyVal.vint 1)] :=
  ⟨⟨by decide, by decide⟩,
    cache_key_generator_order_independent (fun s => s) (fun _ => 0) [] _ _
      (by decide) (by decide)⟩

/-- Content-length component of `utils.calculate_quality_score` (0–30). -/
def lengthScore (content : List Char) : ℚ :=
  let wc := calculate_word_count content
  if 500 ≤ wc then 30 else if 300 ≤ wc then 20 else if 150 ≤ wc then 10 else 0

/-- Title component of `utils.calculate_quality_score` (5–20). -/
def titleScore (title : List Char) : ℚ :=
  let t := (pySplitWs title).length
  if 5 ≤ t ∧ t ≤ 12 then 20 else if 3 ≤ t ∧ t ≤ 15 then 15 else 5

/-- Summary component of `utils.calculate_quality_score` (0–15); a `None`
or empty summary is falsy in Python and scores 0. -/
def summaryScore (summary : Option (List Char)) : ℚ :=
  match summary with
  | none => 0
  | some s => if s ≠ [] ∧ 50 < (pyStrip s).length then 15
              else if s ≠ [] then 10 else 0

/-- Readability component of `utils.calculate_quality_score`: sentence list
is `content.split('.')`, average sentence word count decides the bucket.
The guard `if sentences:` is kept from the source even though the split is
never empty. -/
def readabilityScore (content : List Char) : ℚ :=
  let sentences := pySplitChar '.' content
  if sentences ≠ [] then
    let avg : ℚ := ((sentences.map (fun s => ((pySplitWs s).length : ℚ))).sum) / sentences.length
    if 10 ≤ avg ∧ avg ≤ 20 then 20 else if 5 ≤ avg ∧ avg ≤ 25 then 15 else 10
  else 0

/-- Structure component of `utils.calculate_quality_score` (5–15), from the
paragraph count `len(content.split('\n\n'))`. -/
def structureScore (content : List Char) : ℚ :=
  let paragraphs := pySplitSeq2 '\n' '\n' content
  if 3 ≤ paragraphs.length then 15 else if 2 ≤ paragraphs.length then 10 else 5

/-- `utils.calculate_quality_score`: sum of the five components, clamped to
100 and rounded to two decimals. -/
def calculate_quality_score (content title : List Char) (summary : Option (List Char)) : ℚ :=
  pyRound2 (min (lengthScore content + titleScore title + summaryScore summary
    + readabilityScore content + structureScore content) 100)

/-- Time-decay factor of `utils.calculate_trending_score`. -/
def timeFactor (hoursSince : ℚ) : ℚ :=
  if hoursSince ≤ 1 then 1
  else if hoursSince ≤ 24 then 8/10
  else if hoursSince ≤ 72 then 6/10
  else if hoursSince ≤ 168 then 4/10
  else 1/10

/-- `utils.calculate_trending_score` with timestamps in seconds; the float
literals `0.1`, `2`, `3`, `2.5` are the exact rationals used here. -/
def calculate_trending_score (views likes shares comments : ℕ)
    (publishedAt currentTime : ℚ) : ℚ :=
  let hoursSince := (currentTime - publishedAt) / 3600
  let activity : ℚ := views * (1/10) + likes * 2 + shares * 3 + comments * (5/2)
  pyRound2 (activity * timeFactor hoursSince)

/-- C8: for every content string, `calculate_reading_time` equals
`max(1, round(wordCount/200))` and in particular is always at least 1. -/
theorem reading_time_formula_and_min (content : List Char) :
    calculate_reading_time content
      = max 1 (pyRound ((calculate_word_count content : ℚ) / 200))
    ∧ 1 ≤ calculate_reading_time content :=
  ⟨rfl, le_max_left 1 _⟩

/-- C7: `calculate_trending_score` is the activity score
`views*0.1 + likes*2 + shares*3 + comments*2.5` scaled by the age-bucket
decay factor and rounded to two decimals; for views=100, likes=10, shares=5,
comments=2 and an article published 30 minutes (1800 s) before now, the
result is exactly 50. -/
theorem trending_score_formula_and_scenario :
    (∀ (views likes shares comments : ℕ) (publishedAt currentTime : ℚ),
      calculate_trending_score views likes shares comments publishedAt currentTime
        = pyRound2 ((views * (1/10) + likes * 2 + shares * 3 + comments * (5/2))
            * timeFactor ((currentTime - publishedAt) / 3600)))
    ∧ ∀ (now : ℚ), calculate_trending_score 100 10 5 2 (now - 1800) now = 50 := by
  constructor
  · intro views likes shares comments publishedAt currentTime
    rfl
  · intro now
    simp only [calculate_trending_score, timeFactor]
    rw [show (now - (now - 1800)) / 3600 = (1/2 : ℚ) by ring]
    norm_num [pyRound2, pyRound]

theorem lengthScore_int (content : List Char) :
    ∃ n : ℤ, lengthScore content = (n : ℚ) ∧ 0 ≤ n := by
  unfold lengthScore
  dsimp only
  split_ifs
  exacts [⟨30, by norm_num⟩, ⟨20, by norm_num⟩, ⟨10, by norm_num⟩, ⟨0, by norm_num⟩]

theorem titleScore_int (title : List Char) :
    ∃ n : ℤ, titleScore title = (n : ℚ) ∧ 5 ≤ n := by
  unfold titleScore
  dsimp only
  split_ifs
  exacts [⟨20, by norm_num⟩, ⟨15, by norm_num⟩, ⟨5, by norm_num⟩]

theorem summaryScore_int (summary : Option (List Char)) :
    ∃ n : ℤ, summaryScore summary = (n : ℚ) ∧ 0 ≤ n := by
  unfold summaryScore
  match summary with
  | none => exact ⟨0, by norm_num⟩
  | some s =>
    dsimp only
    split_ifs
    exacts [⟨15, by norm_num⟩, ⟨10, by norm_num⟩, ⟨0, by norm_num⟩]

theorem readabilityScore_int (content : List Char) :
    ∃ n : ℤ, readabilityScore content = (n : ℚ) ∧ 10 ≤ n := by
  unfold readabilityScore
  rw [if_pos (pySplitChar_ne_nil '.' content)]
  dsimp only
  split_ifs
  exacts [⟨20, by norm_num⟩, ⟨15, by norm_num⟩, ⟨10, by norm_num⟩]

theorem structureScore_int (content : List Char) :
    ∃ n : ℤ, structureScore content = (n : ℚ) ∧ 5 ≤ n := by
  unfold structureScore
  dsimp only
  split_ifs
  exacts [⟨15, by norm_num⟩, ⟨10, by norm_num⟩, ⟨5, by norm_num⟩]

/-- C10: for every content, title and optional summary, the quality score is
at least 20: the title component is never below 5, the readability component
never below 10 (the sentence list `content.split('.')` is never empty, so
its guard always passes), the structure component never below 5, and the
length and summary components are nonnegative. -/
theorem quality_score_at_least_20 (content title : List Char)
    (summary : Option (List Char)) :
    pySplitChar '.' content ≠ []
    ∧ 5 ≤ titleScore title
    ∧ 10 ≤ readabilityScore content
    ∧ 5 ≤ structureScore content
    ∧ 20 ≤ calculate_quality_score content title summary := by
  obtain ⟨n1, e1, b1⟩ := lengthScore_int content
  obtain ⟨n2, e2, b2⟩ := titleScore_int title
  obtain ⟨n3, e3, b3⟩ := summaryScore_int summary
  obtain ⟨n4, e4, b4⟩ := readabilityScore_int content
  obtain ⟨n5, e5, b5⟩ := structureScore_int content
  refine ⟨pySplitChar_ne_nil '.' content, ?_, ?_, ?_, ?_⟩
  · rw [e2]; exact_mod_cast b2
  · rw [e4]; exact_mod_cast b4
  · rw [e5]; exact_mod_cast b5
  · unfold calculate_quality_score
    rw [e1, e2, e3, e4, e5]
    rw [show ((n1 : ℚ) + n2 + n3 + n4 + n5) = ((n1 + n2 + n3 + n4 + n5 : ℤ) : ℚ) by
      push_cast; ring]
    rw [show ((100 : ℚ)) = ((100 : ℤ) : ℚ) by norm_num]
    rw [← Int.cast_min, pyRound2_intCast]
    have : (20 : ℤ) ≤ min (n1 + n2 + n3 + n4 + n5) 100 :=
      le_min (by omega) (by norm_num)
    exact_mod_cast this

/-! ### RecommendationResolver
(`fastapi_app/routers/recommendations.py::get_recommendations` and the
identical `flask_app/routes/recommendations.py::get_recommendations`) -/

/-- Article status enum of `shared/models.py::ArticleStatus`. -/
inductive ArticleStatus where
  | draft
  | published
  | archived
  | blocked
deriving DecidableEq

/-- The subset of `articles` columns the resolver reads: identity, status,
category and the two ordering scores of the trending query. -/
structure Article where
  id : Nat
  status : ArticleStatus
  category : String
  trendingScore : ℚ
  engagementScore : ℚ
deriving DecidableEq

/-- A `recommendation_cache` row (timestamps are seconds as integers). -/
structure CachedRecommendation where
  userId : Nat
  recommendedArticles : List Nat
  recommendationScores : List ℚ
  modelEnsemble : String
  cacheTimestamp : ℤ
  expiryTimestamp : ℤ
  isActive : Bool
deriving DecidableEq

/-- A `user_interactions` row (the columns the fallback subquery reads). -/
structure Interaction where
  userId : Nat
  articleId : Nat
  interactionType : String
deriving DecidableEq

/-- `shared/models.py::RecommendationRequest`. -/
structure RecommendationRequest where
  userId : Nat
  limit : Nat
  categories : Option (List String)
  excludeRead : Bool
  diversityWeight : ℚ
deriving DecidableEq

/-- `shared/models.py::RecommendationResponse` (articles restricted to the
fields modelled here). -/
structure RecommendationResponse where
  recommendations : List Article
  modelUsed : String
  generatedAt : ℤ
  expiresAt : ℤ
deriving DecidableEq

/-- Outcome of the Redis `get` on the computed cache key: the client raised
(or the payload failed to deserialize), the key was absent, or a previously
memoized response was returned. -/
inductive EphemeralGet where
  | err
  | miss
  | hit (r : RecommendationResponse)
deriving DecidableEq

/-- The world a single `get_recommendations` request runs against: the three
backing tables, the current time, and fault switches for each collaborator
(`durableFails`: the `recommendation_cache` query raises; `articleFails`:
any `articles` query raises; `ephemeralSetFails`: `redis.setex` raises). -/
structure Store where
  now : ℤ
  recCache : List CachedRecommendation
  articles : List Article
  interactions : List Interaction
  ephemeralGet : EphemeralGet
  ephemeralSetFails : Bool
  durableFails : Bool
  articleFails : Bool
deriving DecidableEq

/-- Which backing stores a resolution touched. -/
structure QueryTrace where
  durableQueried : Bool
  articlesQueried : Bool
  interactionsQueried : Bool
deriving DecidableEq

/-- The generic error detail both backends return on a repository error. -/
def failMsg : String := "Failed to get recommendations"

/-- `ORDER BY cache_timestamp DESC`. -/
def cacheOrd (a b : CachedRecommendation) : Prop := b.cacheTimestamp ≤ a.cacheTimestamp

instance : DecidableRel cacheOrd :=
  fun a b => inferInstanceAs (Decidable (b.cacheTimestamp ≤ a.cacheTimestamp))

instance : IsTotal CachedRecommendation cacheOrd := ⟨fun a b => le_total b.cacheTimestamp a.cacheTimestamp⟩

instance : IsTrans CachedRecommendation cacheOrd := ⟨fun _ _ _ h1 h2 => le_trans h2 h1⟩

/-- The durable-cache query: rows of `recommendation_cache` with
`user_id = %s AND is_active = true AND expiry_timestamp > %s`,
`ORDER BY cache_timestamp DESC LIMIT 1`. -/
def latestActiveForUser (rows : List CachedRecommendation) (uid : Nat) (now : ℤ) :
    Option CachedRecommendation :=
  (List.insertionSort cacheOrd (rows.filter
    (fun r => r.userId == uid && r.isActive && decide (now < r.expiryTimestamp)))).head?

/-- `SELECT * FROM articles WHERE id = ANY(ids) AND status = 'published'
ORDER BY array_position(ids, id)`: `id` is the primary key, so each id in
`ids` resolves to at most one row, each matching row appears once, and rows
are ordered by the first position of their id in `ids`. -/
def findByIdsPublished (arts : List Article) (ids : List Nat) : List Article :=
  (dedupFirst ids).filterMap
    (fun i => arts.find? (fun a => a.id == i && a.status == ArticleStatus.published))

/-- `SELECT DISTINCT article_id FROM user_interactions WHERE user_id = %s
AND interaction_type IN ('view', 'like', 'save')` (as an exclusion set, so
duplicates are irrelevant). -/
def readArticleIds (ints : List Interaction) (uid : Nat) : List Nat :=
  (ints.filter (fun i => i.userId == uid
    && (i.interactionType == "view" || i.interactionType == "like"
        || i.interactionType == "save"))).map (fun i => i.articleId)

/-- `ORDER BY trending_score DESC, engagement_score DESC`. -/
def trendOrd (a b : Article) : Prop :=
  b.trendingScore < a.trendingScore
  ∨ (b.trendingScore = a.trendingScore ∧ b.engagementScore ≤ a.engagementScore)

instance : DecidableRel trendOrd := fun a b =>
  inferInstanceAs (Decidable (b.trendingScore < a.trendingScore
    ∨ (b.trendingScore = a.trendingScore ∧ b.engagementScore ≤ a.engagementScore)))

instance : IsTotal Article trendOrd := by
  refine ⟨fun a b => ?_⟩
  rcases lt_trichotomy a.trendingScore b.trendingScore with h | h | h
  · exact Or.inr (Or.inl h)
  · rcases le_total a.engagementScore b.engagementScore with he | he
    · exact Or.inr (Or.inr ⟨h, he⟩)
    · exact Or.inl (Or.inr ⟨h.symm, he⟩)
  · exact Or.inl (Or.inl h)

instance : IsTrans Article trendOrd := by
  refine ⟨fun a b c h1 h2 => ?_⟩
  rcases h1 with h1 | ⟨h1e, h1s⟩
  · rcases h2 with h2 | ⟨h2e, h2s⟩
    · exact Or.inl (lt_trans h2 h1)
    · exact Or.inl (h2e ▸ h1)
  · rcases h2 with h2 | ⟨h2e, h2s⟩
    · exact Or.inl (h1e ▸ h2)
    · exact Or.inr ⟨h2e.trans h1e, le_trans h2s h1s⟩

/-- Python truthiness of `req_data.categories`: `None` and `[]` are falsy,
so an empty category list applies no category filter. -/
def categoriesTruthy : Option (List String) → Bool
  | none => false
  | some l => !l.isEmpty

/-- The trending-fallback query (stage 3). -/
def findTrending (st : Store) (req : RecommendationRequest) : List Article :=
  let excluded := readArticleIds st.interactions req.userId
  let pool := st.articles.filter (fun a =>
    a.status == ArticleStatus.published
    && (if categoriesTruthy req.categories
        then (req.categories.getD []).contains a.category else true)
    && (if req.excludeRead then !excluded.contains a.id else true))
  (List.insertionSort trendOrd pool).take req.limit

/-- Response assembled from a durable-cache hit. -/
def mkCachedResponse (st : Store) (req : RecommendationRequest)
    (c : CachedRecommendation) : RecommendationResponse :=
  { recommendations := findByIdsPublished st.articles (c.recommendedArticles.take req.limit)
    modelUsed := c.modelEnsemble
    generatedAt := c.cacheTimestamp
    expiresAt := c.expiryTimestamp }

/-- Response assembled by the trending fallback. -/
def mkTrendingResponse (st : Store) (req : RecommendationRequest) :
    RecommendationResponse :=
  { recommendations := findTrending st req
    modelUsed := "trending_fallback"
    generatedAt := st.now
    expiresAt := st.now + 3600 }

/-- Stage 3 (and its failure mode): the fallback articles query, which joins
the interactions subquery exactly when `exclude_read` is set. -/
def fallbackStage (st : Store) (req : RecommendationRequest) :
    Except String RecommendationResponse × QueryTrace :=
  if st.articleFails then (.error failMsg, ⟨true, true, req.excludeRead⟩)
  else (.ok (mkTrendingResponse st req), ⟨true, true, req.excludeRead⟩)

/-- Stages 2–3 of the pipeline (everything inside the
`with get_postgres_cursor()` block): durable cache lookup, truncation of the
ranked ids to `limit`, the status-filtered fetch when the truncated list is
nonempty, and otherwise the trending fallback. -/
def dbStages (st : Store) (req : RecommendationRequest) :
    Except String RecommendationResponse × QueryTrace :=
  if st.durableFails then (.error failMsg, ⟨true, false, false⟩)
  else
    match latestActiveForUser st.recCache req.userId st.now with
    | some c =>
      if (c.recommendedArticles.take req.limit).isEmpty then fallbackStage st req
      else if st.articleFails then (.error failMsg, ⟨true, true, false⟩)
      else (.ok (mkCachedResponse st req c), ⟨true, true, false⟩)
    | none => fallbackStage st req

/-- The common `get_recommendations` pipeline of both backends: ephemeral
memo → durable cache (ids truncated to `limit`; fetch only when the
truncated list is nonempty) → trending fallback; a raising Redis `get` is
treated as a miss, a raising Redis `setex` is swallowed (it does not affect
the returned value), any raising database query aborts with the generic
failure. -/
def resolveRecommendations (st : Store) (req : RecommendationRequest) :
    Except String RecommendationResponse × QueryTrace :=
  match st.ephemeralGet with
  | .hit r => (.ok r, ⟨false, false, false⟩)
  | _ => dbStages st req

/-! ### Concrete states used by witnesses and counterexamples -/

/-- A cache row whose single ranked article is no longer published. -/
def cRec0 : CachedRecommendation :=
  { userId := 1, recommendedArticles := [10], recommendationScores := [1],
    modelEnsemble := "ensemble_v1", cacheTimestamp := 0, expiryTimestamp := 100,
    isActive := true }

/-- The ranked article, demoted to draft. -/
def artDraft : Article :=
  { id := 10, status := .draft, category := "news", trendingScore := 5,
    engagementScore := 5 }

/-- A published article the trending fallback would return. -/
def artPub : Article :=
  { id := 20, status := .published, category := "news", trendingScore := 4,
    engagementScore := 4 }

/-- A store with a valid cache entry whose ranked list resolves to zero
published articles, while a published article exists for the fallback. -/
def st0 : Store :=
  { now := 50, recCache := [cRec0], articles := [artDraft, artPub],
    interactions := [], ephemeralGet := .miss, ephemeralSetFails := false,
    durableFails := false, articleFails := false }

/-- A plain request for user 1. -/
def req0 : RecommendationRequest :=
  { userId := 1, limit := 5, categories := none, excludeRead := false,
    diversityWeight := 0 }

/-- A response sitting in the ephemeral memo. -/
def memoResp : RecommendationResponse :=
  { recommendations := [], modelUsed := "memoized", generatedAt := 1, expiresAt := 2 }

/-! ### Resolver lemmas -/

theorem length_dedupFirstAux_le {α : Type} [DecidableEq α] :
    ∀ (l seen : List α), (dedupFirstAux seen l).length ≤ l.length := by
  intro l
  induction l with
  | nil => intro seen; simp [dedupFirstAux]
  | cons x xs ih =>
    intro seen
    rw [dedupFirstAux]
    split
    · exact le_trans (ih seen) (Nat.le_succ _)
    · simpa using Nat.succ_le_succ (ih (x :: seen))

theorem findByIdsPublished_length_le (arts : List Article) (ids : List Nat) :
    (findByIdsPublished arts ids).length ≤ ids.length :=
  le_trans (List.length_filterMap_le _ _) (length_dedupFirstAux_le ids [])

theorem findByIdsPublished_published (arts : List Article) (ids : List Nat) :
    ∀ a ∈ findByIdsPublished arts ids, a.status = ArticleStatus.published := by
  intro a ha
  obtain ⟨i, _, hfind⟩ := List.mem_filterMap.mp ha
  have hp := List.find?_some hfind
  simp only [Bool.and_eq_true, beq_iff_eq] at hp
  exact hp.2

theorem mkCachedResponse_length_le (st : Store) (req : RecommendationRequest)
    (c : CachedRecommendation) :
    (mkCachedResponse st req c).recommendations.length ≤ req.limit :=
  le_trans (findByIdsPublished_length_le _ _) (List.length_take_le _ _)

theorem mkTrendingResponse_length_le (st : Store) (req : RecommendationRequest) :
    (mkTrendingResponse st req).recommendations.length ≤ req.limit :=
  List.length_take_le _ _

theorem mkTrendingResponse_published (st : Store) (req : RecommendationRequest) :
    ∀ a ∈ (mkTrendingResponse st req).recommendations,
      a.status = ArticleStatus.published := by
  intro a ha
  have h1 : a ∈ List.insertionSort trendOrd (st.articles.filter (fun a =>
      a.status == ArticleStatus.published
      && (if categoriesTruthy req.categories
          then (req.categories.getD []).contains a.category else true)
      && (if req.excludeRead
          then !(readArticleIds st.interactions req.userId).contains a.id
          else true))) := (List.take_sublist _ _).mem ha
  have h2 := (List.mem_insertionSort trendOrd).mp h1
  have h3 := (List.mem_filter.mp h2).2
  simp only [Bool.and_eq_true, beq_iff_eq] at h3
  exact h3.1.1

theorem fallbackStage_first_ok (st : Store) (req : RecommendationRequest)
    {r : RecommendationResponse} (h : (fallbackStage st req).1 = .ok r) :
    r = mkTrendingResponse st req := by
  unfold fallbackStage at h
  split at h
  · simp at h
  · simpa using h.symm

theorem dbStages_ok_bounds (st : Store) (req : RecommendationRequest) :
    ∀ r : RecommendationResponse, (dbStages st req).1 = .ok r →
      r.recommendations.length ≤ req.limit
      ∧ ∀ a ∈ r.recommendations, a.status = ArticleStatus.published := by
  intro r hr
  unfold dbStages at hr
  split at hr
  · simp at hr
  · split at hr
    · next c hc =>
      split at hr
      · have := fallbackStage_first_ok st req hr
        subst this
        exact ⟨mkTrendingResponse_length_le st req, mkTrendingResponse_published st req⟩
      · split at hr
        · simp at hr
        · simp only at hr
          injection hr with hr
          subst hr
          exact ⟨mkCachedResponse_length_le st req c,
            fun a ha => findByIdsPublished_published _ _ a ha⟩
    · have := fallbackStage_first_ok st req hr
      subst this
      exact ⟨mkTrendingResponse_length_le st req, mkTrendingResponse_published st req⟩

/-- C2: for every request and every state of the durable cache, article
store and interaction store — with the ephemeral memo either missing,
failing, or holding only well-formed memoized responses (all the resolver
itself ever writes under this key) — the resolved response holds at most
`request.limit` articles and every article in it has status `published`. -/
theorem resolve_bounded_published (st : Store) (req : RecommendationRequest)
    (hmemo : ∀ r0 : RecommendationResponse, st.ephemeralGet = .hit r0 →
      r0.recommendations.length ≤ req.limit
      ∧ ∀ a ∈ r0.recommendations, a.status = ArticleStatus.published) :
    ∀ r : RecommendationResponse, (resolveRecommendations st req).1 = .ok r →
      r.recommendations.length ≤ req.limit
      ∧ ∀ a ∈ r.recommendations, a.status = ArticleStatus.published := by
  intro r hr
  unfold resolveRecommendations at hr
  cases hget : st.ephemeralGet with
  | err =>
    rw [hget] at hr
    exact dbStages_ok_bounds st req r hr
  | miss =>
    rw [hget] at hr
    exact dbStages_ok_bounds st req r hr
  | hit r0 =>
    rw [hget] at hr
    simp only at hr
    injection hr with hr
    exact hr ▸ hmemo r0 hget

theorem resolve_bounded_published_witness :
    (resolveRecommendations st0 req0).1 = .ok (mkCachedResponse st0 req0 cRec0)
    ∧ (mkCachedResponse st0 req0 cRec0).recommendations.length ≤ req0.limit :=
  ⟨rfl,
    (resolve_bounded_published st0 req0 (fun _ h => nomatch h)
      (mkCachedResponse st0 req0 cRec0) rfl).1⟩

/-- C3: if the ephemeral memo holds a valid entry for the request's key, the
resolver returns that deserialized response immediately, with no query to
the durable cache, article store or interaction store, and the result does
not depend on any of them: any store state with the same memo hit resolves
to the same value. -/
theorem resolve_memo_hit (st : Store) (req : RecommendationRequest)
    (r0 : RecommendationResponse) (h : st.ephemeralGet = .hit r0) :
    resolveRecommendations st req
      = (.ok r0, { durableQueried := false, articlesQueried := false,
                   interactionsQueried := false })
    ∧ ∀ st2 : Store, st2.ephemeralGet = .hit r0 →
        resolveRecommendations st2 req = resolveRecommendations st req := by
  have key : ∀ st3 : Store, st3.ephemeralGet = .hit r0 →
      resolveRecommendations st3 req = (.ok r0, ⟨false, false, false⟩) := by
    intro st3 h3
    unfold resolveRecommendations
    rw [h3]
  exact ⟨key st h, fun st2 h2 => (key st2 h2).trans (key st h).symm⟩

/-- Store whose ephemeral memo already holds a response. -/
def stMemo : Store := { st0 with ephemeralGet := .hit memoResp }

theorem resolve_memo_hit_witness :
    resolveRecommendations stMemo req0
      = (.ok memoResp, { durableQueried := false, articlesQueried := false,
                         interactionsQueried := false }) :=
  (resolve_memo_hit stMemo req0 memoResp rfl).1

theorem fallbackStage_no_failure (st : Store) (req : RecommendationRequest)
    (ha : st.articleFails = false) :
    fallbackStage st req
      = (.ok (mkTrendingResponse st req), ⟨true, true, req.excludeRead⟩) := by
  unfold fallbackStage
  rw [if_neg (by simp [ha])]

theorem dbStages_ok_of_no_failure (st : Store) (req : RecommendationRequest)
    (hd : st.durableFails = false) (ha : st.articleFails = false) :
    ∃ r, (dbStages st req).1 = .ok r := by
  unfold dbStages
  rw [if_neg (by simp [hd])]
  split
  · split
    · exact ⟨mkTrendingResponse st req, by rw [fallbackStage_no_failure st req ha]⟩
    · rw [if_neg (by simp [ha])]
      exact ⟨_, rfl⟩
  · exact ⟨mkTrendingResponse st req, by rw [fallbackStage_no_failure st req ha]⟩

theorem dbStages_error_of_failure (st : Store) (req : RecommendationRequest)
    (hor : st.durableFails = true ∨ st.articleFails = true) :
    (dbStages st req).1 = .error failMsg := by
  unfold dbStages
  by_cases hd : st.durableFails = true
  · rw [if_pos hd]
  · rcases hor with hd2 | ha
    · exact absurd hd2 hd
    · rw [if_neg hd]
      split
      · split
        · simp [fallbackStage, ha]
        · simp [ha]
      · simp [fallbackStage, ha]

theorem dbStages_error_msg (st : Store) (req : RecommendationRequest) :
    ∀ e, (dbStages st req).1 = .error e → e = failMsg := by
  intro e he
  unfold dbStages at he
  split at he
  · simp at he
    exact he.symm
  · split at he
    · split at he
      · unfold fallbackStage at he
        split at he
        · simp at he
          exact he.symm
        · simp at he
      · split at he
        · simp at he
          exact he.symm
        · simp at he
    · unfold fallbackStage at he
      split at he
      · simp at he
        exact he.symm
      · simp at he

/-- C4: ephemeral-store errors never surface — a failing Redis `get`
resolves exactly like a miss and a failing `setex` never changes the result —
whereas an error of the durable cache or article store (whenever those are
reached, i.e. the memo did not hit) aborts the whole request with the single
generic failure and no partial response, and that generic message is the
only error the resolver ever produces; with no repository failure the
request always succeeds. -/
theorem resolve_error_semantics (st : Store) (req : RecommendationRequest) :
    (resolveRecommendations { st with ephemeralGet := .err } req
        = resolveRecommendations { st with ephemeralGet := .miss } req)
    ∧ (resolveRecommendations { st with ephemeralSetFails := true } req
        = resolveRecommendations { st with ephemeralSetFails := false } req)
    ∧ (st.durableFails = false → st.articleFails = false →
        ∃ r, (resolveRecommendations st req).1 = .ok r)
    ∧ ((∀ r0, st.ephemeralGet ≠ .hit r0) →
        (st.durableFails = true ∨ st.articleFails = true) →
        (resolveRecommendations st req).1 = .error failMsg)
    ∧ (∀ e, (resolveRecommendations st req).1 = .error e → e = failMsg) := by
  refine ⟨rfl, rfl, ?_, ?_, ?_⟩
  · intro hd ha
    cases hget : st.ephemeralGet with
    | err =>
      simp only [resolveRecommendations, hget]
      exact dbStages_ok_of_no_failure st req hd ha
    | miss =>
      simp only [resolveRecommendations, hget]
      exact dbStages_ok_of_no_failure st req hd ha
    | hit r0 =>
      exact ⟨r0, by simp [resolveRecommendations, hget]⟩
  · intro hno hor
    cases hget : st.ephemeralGet with
    | err =>
      simp only [resolveRecommendations, hget]
      exact dbStages_error_of_failure st req hor
    | miss =>
      simp only [resolveRecommendations, hget]
      exact dbStages_error_of_failure st req hor
    | hit r0 => exact absurd hget (hno r0)
  · intro e he
    cases hget : st.ephemeralGet with
    | err =>
      simp only [resolveRecommendations, hget] at he
      exact dbStages_error_msg st req e he
    | miss =>
      simp only [resolveRecommendations, hget] at he
      exact dbStages_error_msg st req e he
    | hit r0 => simp [resolveRecommendations, hget] at he

theorem resolve_error_semantics_witness :
    (resolveRecommendations { st0 with durableFails := true } req0).1
      = .error failMsg :=
  (resolve_error_semantics { st0 with durableFails := true } req0).2.2.2.1
    (fun _ h => nomatch h) (Or.inl rfl)

/-- C9: in the durable-cache stage (memo missed or failed, no repository
fault), when the cache entry's ranked id list truncated to `limit` is empty
the resolver always proceeds to the trending fallback; when the truncated
list is nonempty the resolver returns the response derived from the cache
entry, carrying its `model_ensemble` — regardless of how many rows the
status-filtered fetch resolves. -/
theorem durable_stage_dichotomy (st : Store) (req : RecommendationRequest)
    (hget : st.ephemeralGet = .err ∨ st.ephemeralGet = .miss)
    (hd : st.durableFails = false) (ha : st.articleFails = false)
    (c : CachedRecommendation)
    (hc : latestActiveForUser st.recCache req.userId st.now = some c) :
    (c.recommendedArticles.take req.limit = [] →
        resolveRecommendations st req
          = (.ok (mkTrendingResponse st req), ⟨true, true, req.excludeRead⟩))
    ∧ (c.recommendedArticles.take req.limit ≠ [] →
        resolveRecommendations st req
          = (.ok (mkCachedResponse st req c), ⟨true, true, false⟩)
        ∧ (mkCachedResponse st req c).modelUsed = c.modelEnsemble) := by
  have hres : resolveRecommendations st req = dbStages st req := by
    rcases hget with h | h <;> simp [resolveRecommendations, h]
  constructor
  · intro hempty
    rw [hres]
    simp only [dbStages, hc]
    rw [if_neg (by simp [hd]), if_pos (by simp [hempty])]
    exact fallbackStage_no_failure st req ha
  · intro hne
    refine ⟨?_, rfl⟩
    rw [hres]
    simp only [dbStages, hc]
    rw [if_neg (by simp [hd]), if_neg (by simp [List.isEmpty_iff, hne]),
      if_neg (by simp [ha])]

theorem durable_stage_dichotomy_witness :
    resolveRecommendations st0 req0
      = (.ok (mkCachedResponse st0 req0 cRec0), ⟨true, true, false⟩)
    ∧ (mkCachedResponse st0 req0 cRec0).modelUsed = cRec0.modelEnsemble :=
  (durable_stage_dichotomy st0 req0 (Or.inr rfl) rfl rfl cRec0 (by decide)).2
    (by decide)

/-- C1 counterexample: at `st0`/`req0` the durable cache holds a valid entry
(`is_active`, unexpired) whose ranked list truncated to `limit` is the
nonempty `[10]`, article 10 is a draft so zero published articles resolve —
yet the resolver returns the empty response derived from that cache entry
(model `ensemble_v1`) instead of falling through to the trending fallback,
which would have returned the published article 20. -/
theorem stale_cache_no_fallthrough_counterexample :
    (latestActiveForUser st0.recCache req0.userId st0.now = some cRec0
      ∧ cRec0.isActive = true ∧ st0.now < cRec0.expiryTimestamp)
    ∧ cRec0.recommendedArticles.take req0.limit ≠ []
    ∧ findByIdsPublished st0.articles (cRec0.recommendedArticles.take req0.limit) = []
    ∧ (resolveRecommendations st0 req0).1 = .ok (mkCachedResponse st0 req0 cRec0)
    ∧ (mkCachedResponse st0 req0 cRec0).recommendations = []
    ∧ (mkCachedResponse st0 req0 cRec0).modelUsed = "ensemble_v1"
    ∧ (mkCachedResponse st0 req0 cRec0).modelUsed ≠ "trending_fallback"
    ∧ mkCachedResponse st0 req0 cRec0 ≠ mkTrendingResponse st0 req0
    ∧ (mkTrendingResponse st0 req0).recommendations = [artPub] :=
  ⟨⟨by decide, by decide, by decide⟩, by decide, by decide, rfl, by decide,
    by decide, by decide, by decide, by decide⟩

/-- C1 (amended): with the memo missed or failed and no repository fault,
the resolver falls through to the trending fallback only when the cache
entry's ranked id list truncated to `limit` is empty; when the truncated
list is nonempty but yields zero resolvable published articles, the resolver
returns the empty response derived from that cache entry (carrying its
`model_ensemble`) rather than falling through. -/
theorem cached_zero_resolvable_amended (st : Store) (req : RecommendationRequest)
    (hget : st.ephemeralGet = .err ∨ st.ephemeralGet = .miss)
    (hd : st.durableFails = false) (ha : st.articleFails = false)
    (c : CachedRecommendation)
    (hc : latestActiveForUser st.recCache req.userId st.now = some c)
    (hne : c.recommendedArticles.take req.limit ≠ [])
    (hzero : findByIdsPublished st.articles (c.recommendedArticles.take req.limit) = []) :
    resolveRecommendations st req
      = (.ok { recommendations := [], modelUsed := c.modelEnsemble,
               generatedAt := c.cacheTimestamp, expiresAt := c.expiryTimestamp },
         ⟨true, true, false⟩) := by
  have hres : resolveRecommendations st req = dbStages st req := by
    rcases hget with h | h <;> simp [resolveRecommendations, h]
  rw [hres]
  simp only [dbStages, hc]
  rw [if_neg (by simp [hd]), if_neg (by simp [List.isEmpty_iff, hne]),
    if_neg (by simp [ha])]
  unfold mkCachedResponse
  rw [hzero]

theorem cached_zero_resolvable_amended_witness :
    resolveRecommendations st0 req0
      = (.ok { recommendations := [], modelUsed := cRec0.modelEnsemble,
               generatedAt := cRec0.cacheTimestamp,
               expiresAt := cRec0.expiryTimestamp },
         ⟨true, true, false⟩) :=
  cached_zero_resolvable_amended st0 req0 (Or.inr rfl) rfl rfl cRec0
    (by decide) (by decide) (by decide)

end NewsRec
